import Mathlib

/-!
Verification development for the `User_define_data_type_in_python` repository.

The repository contains two independent value-type libraries:

* `fraction_data_type.py` — an exact rational number class `FractionDataType`
  storing an integer pair `(num, den)` that is normalized at construction
  (positive denominator, reduced by the gcd).  It is embedded here over `Int`,
  with Python `//` and `%` rendered as `Int.fdiv` / `Int.fmod` (Python uses
  floor-division conventions).  Fallible operations return `Except PyErr`.
* `cordination_geo.py` — 2D points and implicit-form lines over floats.  The
  float arithmetic is idealized over `ℚ` (all the operations used by the
  claims are field operations), except where `math.hypot`/square roots occur,
  which are modelled over `ℝ`.

Python exceptions are mapped to the spec's error taxonomy (kinds, not class
names): the explicit `ValueError` raises in the fraction module (all of which
concern division by zero) are `PyErr.divisionByZero`; the explicit
`ValueError` raises in the geometry module (degenerate geometric input) are
`PyErr.domainError`; Python's built-in `ZeroDivisionError`, raised when an
unguarded float division meets a zero divisor, is `PyErr.divisionByZero`.
-/

/-- Error kinds of the spec's taxonomy (section 7). -/
inductive PyErr where
  | divisionByZero
  | domainError
  | typeMismatch
deriving DecidableEq

/-- The fraction value type: the stored integer pair of
`fraction_data_type.py`.  The constructor `FractionDataType.init` below is the
only way the Python class produces values, so arbitrary pairs here correspond
to arbitrary field assignments; the claims quantify over values satisfying
`FractionDataType.Invariant`. -/
structure FractionDataType where
  num : Int
  den : Int
deriving DecidableEq

namespace FractionDataType

/-- Embedding of `FractionDataType.__init__` (integer-pair path; the float
branches of lines 22-30 convert integral floats to `int` and are outside the
claims).  Lines 25-26: a zero denominator raises
`ValueError("Denominator cannot be zero")` — the DivisionByZero kind.
Lines 33-34 flip both signs when the denominator is negative; lines 37-39
divide both components by `gcd(abs(num), abs(den))` (Python `//`, rendered as
`Int.fdiv`; `Int.gcd` is the gcd of the absolute values). -/
def init (num den : Int) : Except PyErr FractionDataType :=
  if den = 0 then .error .divisionByZero
  else if den < 0 then
    .ok ⟨(-num).fdiv (Int.gcd (-num) (-den)), (-den).fdiv (Int.gcd (-num) (-den))⟩
  else
    .ok ⟨num.fdiv (Int.gcd num den), den.fdiv (Int.gcd num den)⟩

/-- The representation invariant stated by the spec: positive denominator,
fully reduced, and the zero fraction is `0/1`. -/
def Invariant (f : FractionDataType) : Prop :=
  0 < f.den ∧ Int.gcd f.num f.den = 1 ∧ (f.num = 0 → f.den = 1)

instance (f : FractionDataType) : Decidable (Invariant f) :=
  inferInstanceAs (Decidable (0 < f.den ∧ Int.gcd f.num f.den = 1 ∧ (f.num = 0 → f.den = 1)))

/-- Embedding of `__add__` (lines 52-60): `(ad + cb) / bd`, renormalized by the constructor. -/
def add (x y : FractionDataType) : Except PyErr FractionDataType :=
  init (x.num * y.den + y.num * x.den) (x.den * y.den)

/-- Embedding of `__sub__` (lines 66-74): `(ad - cb) / bd`. -/
def sub (x y : FractionDataType) : Except PyErr FractionDataType :=
  init (x.num * y.den - y.num * x.den) (x.den * y.den)

/-- Embedding of `__mul__` (lines 82-90): `ac / bd`. -/
def mul (x y : FractionDataType) : Except PyErr FractionDataType :=
  init (x.num * y.num) (x.den * y.den)

/-- Embedding of `__truediv__` (lines 96-104): raises
`ValueError("Cannot divide by zero")` when the divisor's numerator is zero,
otherwise `ad / bc`. -/
def truediv (x y : FractionDataType) : Except PyErr FractionDataType :=
  if y.num = 0 then .error .divisionByZero
  else init (x.num * y.den) (x.den * y.num)

/-- Embedding of `__floordiv__` (lines 112-120): the integer `(a*d) // (b*c)`; Python `//`
on integers is floor division, i.e. `Int.fdiv`. -/
def floordiv (x y : FractionDataType) : Except PyErr Int :=
  if y.num = 0 then .error .divisionByZero
  else .ok ((x.num * y.den).fdiv (x.den * y.num))

/-- Embedding of `__pow__` (lines 131-137): for a negative exponent,
`FractionDataType(den ** -e, num ** -e)`; otherwise
`FractionDataType(num ** e, den ** e)`.  (The non-integer-exponent TypeError
branch is ruled out by the `Int` argument type.) -/
def pow (x : FractionDataType) (e : Int) : Except PyErr FractionDataType :=
  if e < 0 then init (x.den ^ (-e).toNat) (x.num ^ (-e).toNat)
  else init (x.num ^ e.toNat) (x.den ^ e.toNat)

/-- Embedding of `__mod__` (lines 122-129): `self - other * (self // other)`; the integer
quotient is coerced back through the constructor by `__mul__`. -/
def mod (x y : FractionDataType) : Except PyErr FractionDataType := do
  let q ← floordiv x y
  let qf ← init q 1
  let t ← mul y qf
  sub x t

/-- Embedding of `__neg__` (lines 139-141). -/
def neg (x : FractionDataType) : Except PyErr FractionDataType :=
  init (-x.num) x.den

/-- Embedding of `__pos__` (lines 143-145). -/
def pos (x : FractionDataType) : Except PyErr FractionDataType :=
  init x.num x.den

/-- Embedding of `__abs__` (lines 147-149). -/
def abs (x : FractionDataType) : Except PyErr FractionDataType :=
  init |x.num| x.den

/-- Embedding of `simplify` (lines 213-215). -/
def simplify (x : FractionDataType) : Except PyErr FractionDataType :=
  init x.num x.den

/-- Embedding of `reciprocal` (lines 217-221): raises
`ValueError("Cannot take reciprocal of zero")` on a zero numerator. -/
def reciprocal (x : FractionDataType) : Except PyErr FractionDataType :=
  if x.num = 0 then .error .divisionByZero
  else init x.den x.num

/-- Embedding of `as_mixed_number` (lines 223-230): `(num // den, abs(num) % den, den)`;
Python `//` and `%` are `Int.fdiv` and `Int.fmod`. -/
def as_mixed_number (x : FractionDataType) : Int × Int × Int :=
  (x.num.fdiv x.den, |x.num|.fmod x.den, x.den)

/-- Embedding of `from_mixed` (lines 255-261): `(whole*den + num) / den` through the
constructor. -/
def from_mixed (whole num den : Int) : Except PyErr FractionDataType :=
  init (whole * den + num) den

/-- Modelled from the spec: `from_float` (lines 240-253) calls the standard
library (`fractions.Fraction(f).limit_denominator(max_denominator)`), which is
not part of this repository, to obtain a best rational approximation of the
float, and then pipes that integer pair through the class constructor.  The
library's output pair is taken as the argument here; `from_float` itself is
exactly the constructor applied to it. -/
def from_float (approx_num approx_den : Int) : Except PyErr FractionDataType :=
  init approx_num approx_den

/-- Embedding of `__eq__` (lines 152-158): componentwise equality of the stored pairs. -/
def eq (x y : FractionDataType) : Prop :=
  x.num = y.num ∧ x.den = y.den

/-- Embedding of `__lt__` (lines 167-173): cross-multiplication `a*d < c*b`. -/
def lt (x y : FractionDataType) : Prop :=
  x.num * y.den < y.num * x.den

/-- Embedding of `__le__` (lines 175-181). -/
def le (x y : FractionDataType) : Prop :=
  x.num * y.den ≤ y.num * x.den

/-- Embedding of `__gt__` (lines 183-189). -/
def gt (x y : FractionDataType) : Prop :=
  x.num * y.den > y.num * x.den

/-- Embedding of `__ge__` (lines 191-197). -/
def ge (x y : FractionDataType) : Prop :=
  x.num * y.den ≥ y.num * x.den

/-- The exact rational value `num/den` represented by a fraction
(`__float__`, line 200-202, computes it in floating point). -/
def value (x : FractionDataType) : ℚ :=
  (x.num : ℚ) / (x.den : ℚ)

end FractionDataType

/-- Embedding of Python's `math.isclose(a, b, rel_tol, abs_tol)` over `ℚ`:
true when the difference is within the larger of the relative and absolute
tolerances. -/
def isclose (a b rel_tol abs_tol : ℚ) : Prop :=
  |a - b| ≤ max (rel_tol * max |a| |b|) abs_tol

instance (a b r t : ℚ) : Decidable (isclose a b r t) :=
  inferInstanceAs (Decidable (|a - b| ≤ max (r * max |a| |b|) t))

/-- Embedding of Python's `math.isclose` over `ℝ`, for the guards computed on
square-root values. -/
def iscloseR (a b rel_tol abs_tol : ℝ) : Prop :=
  |a - b| ≤ max (rel_tol * max |a| |b|) abs_tol

noncomputable instance (a b r t : ℝ) : Decidable (iscloseR a b r t) :=
  inferInstanceAs (Decidable (|a - b| ≤ max (r * max |a| |b|) t))

/-- Embedding of Python's `math.hypot(a, b)`: the Euclidean norm of the pair. -/
noncomputable def hypot (a b : ℝ) : ℝ :=
  Real.sqrt (a ^ 2 + b ^ 2)

/-- A 2D point of `cordination_geo.py` (class `Point`, lines 5-129); the two
float coordinates are idealized as rationals. -/
structure Point where
  x : ℚ
  y : ℚ
deriving DecidableEq

namespace Point

/-- Embedding of `Point.normalize` (lines 87-92): the magnitude is
`hypot(x, y)`; a zero magnitude raises
`ValueError("Cannot normalize zero-length vector")` — the DomainError kind —
and otherwise the coordinates are divided by the magnitude. -/
noncomputable def normalize (p : Point) : Except PyErr (ℝ × ℝ) :=
  let m := hypot (p.x : ℝ) (p.y : ℝ)
  if m = 0 then .error .domainError
  else .ok ((p.x : ℝ) / m, (p.y : ℝ) / m)

end Point

/-- A line `Ax + By + C = 0` of `cordination_geo.py` (class `Line`,
lines 132-293); the three float coefficients are idealized as rationals. -/
structure Line where
  A : ℚ
  B : ℚ
  C : ℚ
deriving DecidableEq

namespace Line

/-- Embedding of `Line.intersection_with` (lines 232-241): Cramer's rule with
determinant `A1*B2 - A2*B1`; when
`math.isclose(determinant, 0.0, abs_tol=1e-12)` holds (the default `rel_tol`
is `1e-9`) the result is `None`, otherwise the solution point. -/
def intersection_with (l other : Line) : Option Point :=
  let determinant := l.A * other.B - other.A * l.B
  if isclose determinant 0 (1e-9) (1e-12) then none
  else
    some ⟨(l.B * other.C - other.B * l.C) / determinant,
          (other.A * l.C - l.A * other.C) / determinant⟩

/-- Embedding of `Line.shortest_distance_to_point` (lines 211-217):
`abs(A*x + B*y + C) / hypot(A, B)` with no guard — when the denominator is
zero the float division itself raises Python's built-in `ZeroDivisionError`,
the DivisionByZero kind. -/
noncomputable def shortest_distance_to_point (l : Line) (p : Point) : Except PyErr ℝ :=
  let numerator := |((l.A * p.x + l.B * p.y + l.C : ℚ) : ℝ)|
  let denominator := hypot (l.A : ℝ) (l.B : ℝ)
  if denominator = 0 then .error .divisionByZero
  else .ok (numerator / denominator)

/-- Embedding of `Line.project_point` (lines 243-253): denominator
`A**2 + B**2`; `math.isclose(denom, 0.0)` with default tolerances
(`rel_tol=1e-9`, `abs_tol=0.0`) raises
`ValueError("Invalid line coefficients")` — the DomainError kind — and
otherwise the orthogonal projection is returned. -/
def project_point (l : Line) (p : Point) : Except PyErr Point :=
  let denom := l.A ^ 2 + l.B ^ 2
  if isclose denom 0 (1e-9) 0 then .error .domainError
  else
    let factor := (l.A * p.x + l.B * p.y + l.C) / denom
    .ok ⟨p.x - l.A * factor, p.y - l.B * factor⟩

/-- Embedding of `Line.unit_normal` (lines 260-265): `s = hypot(A, B)`;
`math.isclose(s, 0.0)` with default tolerances raises
`ValueError("Invalid line coefficients")`, otherwise `(A/s, B/s)`. -/
noncomputable def unit_normal (l : Line) : Except PyErr (ℝ × ℝ) :=
  let s := hypot (l.A : ℝ) (l.B : ℝ)
  if iscloseR s 0 (1e-9) 0 then .error .domainError
  else .ok ((l.A : ℝ) / s, (l.B : ℝ) / s)

/-- Embedding of `Line.offset` (lines 267-276): `s = hypot(A, B)`;
`math.isclose(s, 0.0)` with default tolerances raises
`ValueError("Invalid line coefficients")`, otherwise the coefficient triple
`(A, B, C - s*distance)` of the shifted line (a float triple, hence `ℝ`). -/
noncomputable def offset (l : Line) (distance : ℚ) : Except PyErr (ℝ × ℝ × ℝ) :=
  let s := hypot (l.A : ℝ) (l.B : ℝ)
  if iscloseR s 0 (1e-9) 0 then .error .domainError
  else .ok ((l.A : ℝ), (l.B : ℝ), (l.C : ℝ) - s * (distance : ℝ))

end Line

namespace FractionDataType

/-- Reducing a pair with positive denominator yields an invariant-satisfying
pair representing the same rational (cross-multiplication form). -/
theorem reduce_invariant (n d : Int) (hd : 0 < d) :
    Invariant ⟨n.fdiv (Int.gcd n d), d.fdiv (Int.gcd n d)⟩ ∧
      (n.fdiv (Int.gcd n d)) * d = n * (d.fdiv (Int.gcd n d)) := by
  have hdne : d ≠ 0 := ne_of_gt hd
  have hgnat : Int.gcd n d ≠ 0 := by
    intro h
    exact hdne (Int.gcd_eq_zero_iff.mp h).2
  have hg : (0 : Int) < (Int.gcd n d : Int) := by
    exact_mod_cast Nat.pos_of_ne_zero hgnat
  have hgne : ((Int.gcd n d : Int)) ≠ 0 := ne_of_gt hg
  have hdvdn : ((Int.gcd n d : Int)) ∣ n := Int.gcd_dvd_left
  have hdvdd : ((Int.gcd n d : Int)) ∣ d := Int.gcd_dvd_right
  have hfa : n.fdiv (Int.gcd n d) = n / (Int.gcd n d : Int) :=
    Int.fdiv_eq_ediv_of_dvd hdvdn
  have hfb : d.fdiv (Int.gcd n d) = d / (Int.gcd n d : Int) :=
    Int.fdiv_eq_ediv_of_dvd hdvdd
  have hna : n / (Int.gcd n d : Int) * (Int.gcd n d : Int) = n :=
    Int.ediv_mul_cancel hdvdn
  have hdb : d / (Int.gcd n d : Int) * (Int.gcd n d : Int) = d :=
    Int.ediv_mul_cancel hdvdd
  have hbpos : 0 < d / (Int.gcd n d : Int) :=
    Int.ediv_pos_of_pos_of_dvd hd (le_of_lt hg) hdvdd
  have hcop := Int.gcd_div_gcd_div_gcd (i := n) (j := d) (by exact_mod_cast hg)
  refine ⟨⟨?_, ?_, ?_⟩, ?_⟩
  · simpa [hfb] using hbpos
  · simpa [hfa, hfb] using hcop
  · intro h0
    have h0' : n / (Int.gcd n d : Int) = 0 := by simpa [hfa] using h0
    show d.fdiv (Int.gcd n d) = 1
    rw [hfb]
    have hn0 : n = 0 := by rw [← hna, h0', zero_mul]
    have hgd : (Int.gcd n d : Int) = d := by
      rw [hn0, Int.gcd_zero_left]
      exact (Int.abs_eq_natAbs d).symm.trans (abs_of_pos hd)
    rw [hgd]
    exact Int.ediv_self hdne
  · rw [hfa, hfb]
    calc n / (Int.gcd n d : Int) * d
        = n / (Int.gcd n d : Int) * (d / (Int.gcd n d : Int) * (Int.gcd n d : Int)) := by
          rw [hdb]
      _ = n / (Int.gcd n d : Int) * (Int.gcd n d : Int) * (d / (Int.gcd n d : Int)) := by
          ring
      _ = n * (d / (Int.gcd n d : Int)) := by rw [hna]

/-- A successful construction exists for every nonzero denominator, and the
result is invariant-satisfying and represents `n/d`. -/
theorem init_ok (n d : Int) (hd : d ≠ 0) :
    ∃ f, init n d = .ok f ∧ Invariant f ∧ f.num * d = n * f.den := by
  unfold init
  rw [if_neg hd]
  by_cases hneg : d < 0
  · rw [if_pos hneg]
    obtain ⟨hinv, hcross⟩ := reduce_invariant (-n) (-d) (by omega)
    refine ⟨_, rfl, hinv, ?_⟩
    rw [mul_neg, neg_mul, neg_inj] at hcross
    exact hcross
  · rw [if_neg hneg]
    obtain ⟨hinv, hcross⟩ := reduce_invariant n d (by omega)
    exact ⟨_, rfl, hinv, hcross⟩

/-- Construction with a zero denominator fails with the DivisionByZero kind. -/
theorem init_zero_den (n : Int) : init n 0 = .error .divisionByZero := rfl

/-- Any successful construction satisfies the representation invariant. -/
theorem init_invariant {n d : Int} {f : FractionDataType}
    (h : init n d = .ok f) : Invariant f := by
  by_cases hd : d = 0
  · rw [hd, init_zero_den] at h
    exact absurd h (by simp)
  · obtain ⟨f', he, hinv, _⟩ := init_ok n d hd
    rw [he] at h
    injection h with h
    exact h ▸ hinv

/-- The reduced form with positive denominator is unique: two
invariant-satisfying fractions with equal cross products are equal. -/
theorem invariant_unique (f g : FractionDataType) (hf : Invariant f) (hg : Invariant g)
    (h : f.num * g.den = g.num * f.den) : f = g := by
  obtain ⟨hfd, hfg, hf0⟩ := hf
  obtain ⟨hgd, hgg, hg0⟩ := hg
  by_cases hz : f.num = 0
  · have hz' : g.num = 0 := by
      rw [hz, zero_mul] at h
      rcases mul_eq_zero.mp h.symm with h' | h'
      · exact h'
      · omega
    obtain ⟨fn, fd⟩ := f
    obtain ⟨gn, gd⟩ := g
    simp only at hz hz' hf0 hg0
    simp [hz, hz', hf0 hz, hg0 hz']
  · have hz' : g.num ≠ 0 := by
      intro h0
      rw [h0, zero_mul] at h
      rcases mul_eq_zero.mp h with h' | h'
      · exact hz h'
      · omega
    have hcf : IsCoprime f.num f.den := Int.isCoprime_iff_gcd_eq_one.mpr hfg
    have hcg : IsCoprime g.num g.den := Int.isCoprime_iff_gcd_eq_one.mpr hgg
    have hd1 : f.den ∣ g.den := by
      have hdvd : f.den ∣ f.num * g.den := by
        rw [h]
        exact Dvd.intro_left g.num rfl
      exact (hcf.symm).dvd_of_dvd_mul_left hdvd
    have hd2 : g.den ∣ f.den := by
      have hdvd : g.den ∣ g.num * f.den := by
        rw [← h]
        exact Dvd.intro_left f.num rfl
      exact (hcg.symm).dvd_of_dvd_mul_left hdvd
    have hdd : f.den = g.den := Int.dvd_antisymm (le_of_lt hfd) (le_of_lt hgd) hd1 hd2
    have hnn : f.num = g.num := by
      rw [hdd] at h
      exact mul_right_cancel₀ (by omega) h
    obtain ⟨fn, fd⟩ := f
    obtain ⟨gn, gd⟩ := g
    simp only at hdd hnn
    rw [hdd, hnn]

/-- Constructing from any pair that cross-multiplies to an
invariant-satisfying fraction returns exactly that fraction. -/
theorem init_eq (n d : Int) (hd : d ≠ 0) (f : FractionDataType) (hf : Invariant f)
    (hcross : f.num * d = n * f.den) : init n d = .ok f := by
  obtain ⟨f', he, hinv', hcross'⟩ := init_ok n d hd
  have hkey : d * (f'.num * f.den) = d * (f.num * f'.den) := by
    linear_combination f.den * hcross' - f'.den * hcross
  have : f' = f := invariant_unique f' f hinv' hf (mul_left_cancel₀ hd hkey)
  rw [he, this]

/-- Constructing from an integer gives the fraction `n/1`. -/
theorem init_int (n : Int) : init n 1 = .ok ⟨n, 1⟩ := by
  apply init_eq n 1 one_ne_zero ⟨n, 1⟩
  · refine ⟨one_pos, ?_, fun _ => rfl⟩
    show Int.gcd n 1 = 1
    simp [Int.gcd]
  · simp

end FractionDataType

/-- Floor division commutes with negating both operands (both round toward
negative infinity). -/
theorem Int.neg_fdiv_neg (a b : Int) : (-a).fdiv (-b) = a.fdiv b := by
  cases a with
  | ofNat m =>
    cases m with
    | zero =>
      cases b with
      | ofNat n =>
        cases n with
        | zero => rfl
        | succ n => rfl
      | negSucc n => rfl
    | succ m =>
      cases b with
      | ofNat n =>
        cases n with
        | zero =>
          show (0 : Int) = Int.ofNat ((m + 1) / 0)
          rw [Nat.div_zero]
          rfl
        | succ n => rfl
      | negSucc n => rfl
  | negSucc m =>
    cases b with
    | ofNat n =>
      cases n with
      | zero =>
        show Int.ofNat ((m + 1) / 0) = 0
        rw [Nat.div_zero]
        rfl
      | succ n => rfl
    | negSucc n => rfl

/-- For a positive divisor, `Int.fdiv` is the floor of the exact rational
quotient. -/
theorem fdiv_eq_floor_of_pos (a b : Int) (hb : 0 < b) :
    a.fdiv b = ⌊(a : ℚ) / (b : ℚ)⌋ := by
  rw [Int.fdiv_eq_ediv a (le_of_lt hb)]
  have hbn : b = (b.toNat : Int) := (Int.toNat_of_nonneg (le_of_lt hb)).symm
  rw [hbn]
  rw [show (((b.toNat : Int) : ℚ)) = ((b.toNat : ℕ) : ℚ) by push_cast; ring]
  exact (Rat.floor_intCast_div_natCast a b.toNat).symm

/-- The function `Int.fdiv` is the mathematical floor of the exact rational quotient for
every nonzero divisor (this is Python's `//` on integers). -/
theorem fdiv_eq_floor (a b : Int) (hb : b ≠ 0) :
    a.fdiv b = ⌊(a : ℚ) / (b : ℚ)⌋ := by
  rcases lt_or_gt_of_ne hb with hneg | hpos
  · rw [← Int.neg_fdiv_neg a b]
    rw [fdiv_eq_floor_of_pos (-a) (-b) (by omega)]
    congr 1
    push_cast
    rw [neg_div_neg_eq]
  · exact fdiv_eq_floor_of_pos a b hpos

/-- With first argument compared against zero, `math.isclose` with relative
tolerance `1e-9` and a nonnegative absolute tolerance is exactly the absolute
test: the relative branch can only fire at zero itself. -/
theorem isclose_zero_iff (x t : ℚ) (ht : 0 ≤ t) : isclose x 0 (1e-9) t ↔ |x| ≤ t := by
  unfold isclose
  rw [sub_zero]
  constructor
  · intro h
    rcases le_max_iff.mp h with h' | h'
    · rw [abs_zero, max_eq_left (abs_nonneg x)] at h'
      nlinarith [abs_nonneg x]
    · exact h'
  · intro h
    exact le_max_iff.mpr (Or.inr h)

/-- Over the reals, `math.isclose(s, 0.0)` with default tolerances
(`rel_tol=1e-9`, `abs_tol=0.0`) holds exactly at zero. -/
theorem iscloseR_zero_iff (x : ℝ) : iscloseR x 0 (1e-9) 0 ↔ x = 0 := by
  unfold iscloseR
  rw [sub_zero]
  constructor
  · intro h
    rw [abs_zero, max_eq_left (abs_nonneg x)] at h
    rcases le_max_iff.mp h with h' | h'
    · have hz : |x| ≤ 0 := by nlinarith [abs_nonneg x]
      exact abs_eq_zero.mp (le_antisymm hz (abs_nonneg x))
    · exact abs_eq_zero.mp (le_antisymm h' (abs_nonneg x))
  · intro h
    rw [h]
    simp

/-- The hypotenuse of a pair vanishes exactly on the zero pair. -/
theorem hypot_eq_zero_iff (a b : ℝ) : hypot a b = 0 ↔ a = 0 ∧ b = 0 := by
  unfold hypot
  rw [Real.sqrt_eq_zero (by positivity),
    add_eq_zero_iff_of_nonneg (by positivity) (by positivity), sq_eq_zero_iff, sq_eq_zero_iff]

/-- Claim C2: `intersection_with` solves the 2x2 system by Cramer's rule with
determinant `D = A1*B2 - A2*B1`; whenever `D` is within absolute tolerance
`1e-12` of zero the result is the absent value, otherwise it is the point
`((B1*C2 - B2*C1)/D, (A2*C1 - A1*C2)/D)`; in particular `Line(1,-1,0)` and
`Line(1,1,-4)` intersect at exactly `(2, 2)`. -/
theorem spec_C2_cramer_intersection :
    (∀ l other : Line,
      (|l.A * other.B - other.A * l.B| ≤ 1e-12 → l.intersection_with other = none) ∧
      (¬ |l.A * other.B - other.A * l.B| ≤ 1e-12 →
        l.intersection_with other =
          some ⟨(l.B * other.C - other.B * l.C) / (l.A * other.B - other.A * l.B),
                (other.A * l.C - l.A * other.C) / (l.A * other.B - other.A * l.B)⟩)) ∧
    Line.intersection_with ⟨1, -1, 0⟩ ⟨1, 1, -4⟩ = some ⟨2, 2⟩ := by
  constructor
  · intro l other
    constructor
    · intro h
      simp only [Line.intersection_with]
      rw [if_pos ((isclose_zero_iff _ _ (by norm_num)).mpr h)]
    · intro h
      simp only [Line.intersection_with]
      rw [if_neg (fun hc => h ((isclose_zero_iff _ _ (by norm_num)).mp hc))]
  · norm_num [Line.intersection_with, isclose]

/-- Witness for C2: the nondegenerate branch evaluated at the worked example
pair of lines, whose determinant is `2`. -/
theorem spec_C2_witness :
    Line.intersection_with ⟨1, -1, 0⟩ ⟨1, 1, -4⟩ =
      some ⟨((-1) * (-4) - 1 * 0) / (1 * 1 - 1 * (-1)), (1 * 0 - 1 * (-4)) / (1 * 1 - 1 * (-1))⟩ :=
  (spec_C2_cramer_intersection.1 ⟨1, -1, 0⟩ ⟨1, 1, -4⟩).2 (by norm_num)

/-- Claim C3: `intersection_with` of two parallel lines returns normally with
the explicit absent value: whenever the determinant is within `1e-12` of zero
the result is `none`, and in particular
`Line(1,1,-4).intersection_with(Line(1,1,5))` is the absent value. -/
theorem spec_C3_parallel_absent :
    (∀ l other : Line,
      |l.A * other.B - other.A * l.B| ≤ 1e-12 → l.intersection_with other = none) ∧
    Line.intersection_with ⟨1, 1, -4⟩ ⟨1, 1, 5⟩ = none := by
  constructor
  · intro l other h
    simp only [Line.intersection_with]
    rw [if_pos ((isclose_zero_iff _ _ (by norm_num)).mpr h)]
  · norm_num [Line.intersection_with, isclose]

/-- Witness for C3: a distinct pair of parallel lines with zero determinant. -/
theorem spec_C3_witness : Line.intersection_with ⟨2, 3, 0⟩ ⟨4, 6, 1⟩ = none :=
  spec_C3_parallel_absent.1 ⟨2, 3, 0⟩ ⟨4, 6, 1⟩ (by norm_num)

/-- Counterexample to claim C4 as stated: with both coefficients zero,
`shortest_distance_to_point` has no guard — the float division raises
Python's `ZeroDivisionError` (the DivisionByZero kind), not the DomainError
kind the claim asserts for every degenerate Line operation. -/
theorem spec_C4_counterexample :
    Line.shortest_distance_to_point ⟨0, 0, 1⟩ ⟨0, 0⟩ = .error .divisionByZero ∧
      Line.shortest_distance_to_point ⟨0, 0, 1⟩ ⟨0, 0⟩ ≠ .error .domainError := by
  have hz : hypot (((0 : ℚ) : ℝ)) (((0 : ℚ) : ℝ)) = 0 := by
    rw [hypot_eq_zero_iff]
    norm_num
  have h1 : Line.shortest_distance_to_point ⟨0, 0, 1⟩ ⟨0, 0⟩ = .error .divisionByZero := by
    simp only [Line.shortest_distance_to_point]
    rw [if_pos hz]
  refine ⟨h1, ?_⟩
  rw [h1]
  simp

/-- Claim C4 (amended): `Point.normalize` fails with DomainError exactly when
the magnitude is zero, i.e. on the zero vector; of the Line operations
requiring a nonzero normal, `project_point`, `unit_normal` and `offset` fail
with DomainError when both coefficients are zero, while
`shortest_distance_to_point` fails there with a DivisionByZero-kind error
(its division is unguarded). -/
theorem spec_C4_degenerate_errors :
    (∀ p : Point, p.normalize = .error .domainError ↔ p.x = 0 ∧ p.y = 0) ∧
    (∀ l : Line, l.A = 0 → l.B = 0 →
      (∀ p, l.project_point p = .error .domainError) ∧
      l.unit_normal = .error .domainError ∧
      (∀ d, l.offset d = .error .domainError) ∧
      (∀ p, l.shortest_distance_to_point p = .error .divisionByZero)) := by
  constructor
  · intro p
    by_cases hm : hypot ((p.x : ℝ)) ((p.y : ℝ)) = 0
    · simp only [Point.normalize, if_pos hm]
      have h := (hypot_eq_zero_iff _ _).mp hm
      constructor
      · intro _
        exact ⟨by exact_mod_cast h.1, by exact_mod_cast h.2⟩
      · intro _
        trivial
    · simp only [Point.normalize, if_neg hm]
      constructor
      · intro h
        exact absurd h (by simp)
      · intro ⟨hx, hy⟩
        exact absurd ((hypot_eq_zero_iff _ _).mpr ⟨by exact_mod_cast hx, by exact_mod_cast hy⟩) hm
  · intro l hA hB
    have hz : hypot ((l.A : ℝ)) ((l.B : ℝ)) = 0 := by
      rw [hypot_eq_zero_iff, hA, hB]
      norm_num
    refine ⟨?_, ?_, ?_, ?_⟩
    · intro p
      simp only [Line.project_point, hA, hB]
      rw [if_pos (by norm_num [isclose])]
    · simp only [Line.unit_normal]
      rw [if_pos ((iscloseR_zero_iff _).mpr hz)]
    · intro d
      simp only [Line.offset]
      rw [if_pos ((iscloseR_zero_iff _).mpr hz)]
    · intro p
      simp only [Line.shortest_distance_to_point]
      rw [if_pos hz]

/-- Witness for the amended C4: the degenerate line with all guards firing. -/
theorem spec_C4_witness : Line.unit_normal ⟨0, 0, 5⟩ = .error .domainError :=
  (spec_C4_degenerate_errors.2 ⟨0, 0, 5⟩ rfl rfl).2.1

/-- Binding a successful `Except` computation applies the continuation. -/
theorem ok_bind {ε α β : Type} (a : α) (k : α → Except ε β) :
    (Except.ok a >>= k) = k a := rfl

/-- Binding a failed `Except` computation propagates the error. -/
theorem error_bind {ε α β : Type} (e : ε) (k : α → Except ε β) :
    ((Except.error e : Except ε α) >>= k) = Except.error e := rfl

namespace FractionDataType

/-- Claim C1: every Fraction value returned to the caller — by construction
from an integer pair and by every arithmetic, unary, and utility operation —
satisfies the invariant: positive denominator, gcd of absolute numerator and
denominator equal to one, and denominator one whenever the numerator is zero. -/
theorem spec_C1_invariant :
    (∀ n d : Int, ∀ f, init n d = .ok f → Invariant f) ∧
    (∀ x y f, add x y = .ok f → Invariant f) ∧
    (∀ x y f, sub x y = .ok f → Invariant f) ∧
    (∀ x y f, mul x y = .ok f → Invariant f) ∧
    (∀ x y f, truediv x y = .ok f → Invariant f) ∧
    (∀ x y f, mod x y = .ok f → Invariant f) ∧
    (∀ x f, ∀ e : Int, pow x e = .ok f → Invariant f) ∧
    (∀ x f, neg x = .ok f → Invariant f) ∧
    (∀ x f, pos x = .ok f → Invariant f) ∧
    (∀ x f, abs x = .ok f → Invariant f) ∧
    (∀ x f, simplify x = .ok f → Invariant f) ∧
    (∀ x f, reciprocal x = .ok f → Invariant f) ∧
    (∀ w n d : Int, ∀ f, from_mixed w n d = .ok f → Invariant f) ∧
    (∀ n d : Int, ∀ f, from_float n d = .ok f → Invariant f) := by
  refine ⟨fun n d f h => init_invariant h,
    fun x y f h => init_invariant h,
    fun x y f h => init_invariant h,
    fun x y f h => init_invariant h,
    ?_, ?_, ?_,
    fun x f h => init_invariant h,
    fun x f h => init_invariant h,
    fun x f h => init_invariant h,
    fun x f h => init_invariant h,
    ?_,
    fun w n d f h => init_invariant h,
    fun n d f h => init_invariant h⟩
  · intro x y f h
    unfold truediv at h
    split at h
    · simp at h
    · exact init_invariant h
  · intro x y f h
    unfold mod at h
    cases hq : floordiv x y with
    | error e => rw [hq, error_bind] at h; simp at h
    | ok q =>
      rw [hq, ok_bind] at h
      cases hi : init q 1 with
      | error e => rw [hi, error_bind] at h; simp at h
      | ok qf =>
        rw [hi, ok_bind] at h
        cases hm : mul y qf with
        | error e => rw [hm, error_bind] at h; simp at h
        | ok t =>
          rw [hm, ok_bind] at h
          exact init_invariant h
  · intro x f e h
    unfold pow at h
    split at h
    · exact init_invariant h
    · exact init_invariant h
  · intro x f h
    unfold reciprocal at h
    split at h
    · simp at h
    · exact init_invariant h

/-- Witness for C1: the construction conjunct at `6/8`, which reduces to the
invariant-satisfying pair `3/4`. -/
theorem spec_C1_witness : Invariant ⟨3, 4⟩ :=
  spec_C1_invariant.1 6 8 ⟨3, 4⟩ rfl

/-- Claim C5: for every pair of invariant fractions with nonzero divisor,
dividing and then multiplying back returns the original fraction on the nose
(reduced-form equality is equality of the stored pairs). -/
theorem spec_C5_div_mul_cancel (f g : FractionDataType) (hf : Invariant f) (hg : Invariant g)
    (hgn : g.num ≠ 0) : ∃ q, truediv f g = .ok q ∧ mul q g = .ok f := by
  have hden : f.den * g.num ≠ 0 := mul_ne_zero (ne_of_gt hf.1) hgn
  obtain ⟨q, hq, hinvq, hcross⟩ := init_ok (f.num * g.den) (f.den * g.num) hden
  refine ⟨q, ?_, ?_⟩
  · unfold truediv
    rw [if_neg hgn, hq]
  · unfold mul
    apply init_eq (q.num * g.num) (q.den * g.den)
      (mul_ne_zero (ne_of_gt hinvq.1) (ne_of_gt hg.1)) f hf
    linear_combination (-1 : Int) * hcross

/-- Witness for C5: dividing one half by two thirds and multiplying back. -/
theorem spec_C5_witness :
    ∃ q, truediv ⟨1, 2⟩ ⟨2, 3⟩ = .ok q ∧ mul q ⟨2, 3⟩ = .ok ⟨1, 2⟩ :=
  spec_C5_div_mul_cancel ⟨1, 2⟩ ⟨2, 3⟩ (by decide) (by decide) (by decide)

/-- Claim C7: floor division of invariant fractions `a/b` and nonzero `c/d`
returns the mathematical floor of the rational `(a*d)/(b*c)`, rounding toward
negative infinity for all sign combinations. -/
theorem spec_C7_floordiv_floor (f g : FractionDataType) (hf : Invariant f) (hg : Invariant g)
    (hgn : g.num ≠ 0) :
    floordiv f g = .ok ⌊((f.num * g.den : Int) : ℚ) / ((f.den * g.num : Int) : ℚ)⌋ := by
  unfold floordiv
  rw [if_neg hgn, fdiv_eq_floor _ _ (mul_ne_zero (ne_of_gt hf.1) hgn)]

/-- Witness for C7: minus seven halves floor-divided by three halves, a
negative operand exercising the round-toward-negative-infinity convention. -/
theorem spec_C7_witness :
    floordiv ⟨-7, 2⟩ ⟨3, 2⟩ = .ok ⌊(((-7 : Int) * 2 : Int) : ℚ) / (((2 : Int) * 3 : Int) : ℚ)⌋ :=
  spec_C7_floordiv_floor ⟨-7, 2⟩ ⟨3, 2⟩ (by decide) (by decide) (by decide)

/-- Claim C8: every comparison computed by cross-multiplication agrees with
the true rational order of the represented values (sound because
denominators are positive), equality agrees with value equality, and an
integer argument is converted to the fraction `n/1` before comparing. -/
theorem spec_C8_cross_mul_order (f g : FractionDataType) (hf : Invariant f) (hg : Invariant g) :
    (lt f g ↔ value f < value g) ∧
    (le f g ↔ value f ≤ value g) ∧
    (gt f g ↔ value f > value g) ∧
    (ge f g ↔ value f ≥ value g) ∧
    (eq f g ↔ value f = value g) ∧
    (∀ n : Int, init n 1 = .ok ⟨n, 1⟩ ∧ (lt f ⟨n, 1⟩ ↔ value f < (n : ℚ))) := by
  have hfd : (0 : ℚ) < (f.den : ℚ) := by exact_mod_cast hf.1
  have hgd : (0 : ℚ) < (g.den : ℚ) := by exact_mod_cast hg.1
  refine ⟨?_, ?_, ?_, ?_, ?_, ?_⟩
  · unfold lt value
    rw [div_lt_div_iff₀ hfd hgd]
    exact ⟨fun h => by exact_mod_cast h, fun h => by exact_mod_cast h⟩
  · unfold le value
    rw [div_le_div_iff₀ hfd hgd]
    exact ⟨fun h => by exact_mod_cast h, fun h => by exact_mod_cast h⟩
  · unfold gt value
    simp only [gt_iff_lt]
    rw [div_lt_div_iff₀ hgd hfd]
    exact ⟨fun h => by exact_mod_cast h, fun h => by exact_mod_cast h⟩
  · unfold ge value
    simp only [ge_iff_le]
    rw [div_le_div_iff₀ hgd hfd]
    exact ⟨fun h => by exact_mod_cast h, fun h => by exact_mod_cast h⟩
  · constructor
    · intro ⟨h1, h2⟩
      unfold value
      rw [h1, h2]
    · intro h
      unfold value at h
      rw [div_eq_div_iff (ne_of_gt hfd) (ne_of_gt hgd)] at h
      have hcross : f.num * g.den = g.num * f.den := by exact_mod_cast h
      have := invariant_unique f g hf hg hcross
      exact ⟨by rw [this], by rw [this]⟩
  · intro n
    refine ⟨init_int n, ?_⟩
    unfold lt value
    simp only [mul_one]
    rw [div_lt_iff₀ hfd]
    exact ⟨fun h => by exact_mod_cast h, fun h => by exact_mod_cast h⟩

/-- Witness for C8: the order of one third and one half. -/
theorem spec_C8_witness :
    (lt ⟨1, 3⟩ ⟨1, 2⟩ ↔ value ⟨1, 3⟩ < value ⟨1, 2⟩) ∧
    (le ⟨1, 3⟩ ⟨1, 2⟩ ↔ value ⟨1, 3⟩ ≤ value ⟨1, 2⟩) ∧
    (gt ⟨1, 3⟩ ⟨1, 2⟩ ↔ value ⟨1, 3⟩ > value ⟨1, 2⟩) ∧
    (ge ⟨1, 3⟩ ⟨1, 2⟩ ↔ value ⟨1, 3⟩ ≥ value ⟨1, 2⟩) ∧
    (eq ⟨1, 3⟩ ⟨1, 2⟩ ↔ value ⟨1, 3⟩ = value ⟨1, 2⟩) ∧
    (∀ n : Int, init n 1 = .ok ⟨n, 1⟩ ∧ (lt ⟨1, 3⟩ ⟨n, 1⟩ ↔ value ⟨1, 3⟩ < (n : ℚ))) :=
  spec_C8_cross_mul_order ⟨1, 3⟩ ⟨1, 2⟩ (by decide) (by decide)

/-- Claim C9: `as_mixed_number` returns the floor quotient, a remainder in
range, and the denominator, and for every non-negative invariant fraction
`from_mixed` applied to that triple returns the original fraction. -/
theorem spec_C9_mixed_round_trip (f : FractionDataType) (hf : Invariant f) (hnn : 0 ≤ f.num) :
    (as_mixed_number f).1 * f.den + (as_mixed_number f).2.1 = f.num ∧
    0 ≤ (as_mixed_number f).2.1 ∧ (as_mixed_number f).2.1 < f.den ∧
    from_mixed (as_mixed_number f).1 (as_mixed_number f).2.1 (as_mixed_number f).2.2 = .ok f := by
  have hd : 0 < f.den := hf.1
  simp only [as_mixed_number]
  have hdecomp : f.num.fdiv f.den * f.den + |f.num|.fmod f.den = f.num := by
    rw [abs_of_nonneg hnn]
    linear_combination Int.fdiv_add_fmod f.num f.den
  refine ⟨hdecomp, ?_, ?_, ?_⟩
  · rw [abs_of_nonneg hnn]
    exact Int.fmod_nonneg' _ hd
  · rw [abs_of_nonneg hnn]
    exact Int.fmod_lt_of_pos _ hd
  · unfold from_mixed
    rw [hdecomp]
    exact init_eq f.num f.den (by omega) f hf (by ring)

/-- Witness for C9: seven thirds, whose mixed-number form is two and one
third. -/
theorem spec_C9_witness :
    (as_mixed_number ⟨7, 3⟩).1 * (3 : Int) + (as_mixed_number ⟨7, 3⟩).2.1 = 7 ∧
    0 ≤ (as_mixed_number ⟨7, 3⟩).2.1 ∧ (as_mixed_number ⟨7, 3⟩).2.1 < 3 ∧
    from_mixed (as_mixed_number ⟨7, 3⟩).1 (as_mixed_number ⟨7, 3⟩).2.1
      (as_mixed_number ⟨7, 3⟩).2.2 = .ok ⟨7, 3⟩ :=
  spec_C9_mixed_round_trip ⟨7, 3⟩ (by decide) (by decide)

/-- Counterexample to claim C6 as stated: the DivisionByZero kind also
escapes from `pow` — raising the zero fraction to the exponent `-2`, an
operation outside the claim's enumerated cases, fails with DivisionByZero
(the negative-exponent branch constructs a fraction with zero denominator). -/
theorem spec_C6_counterexample : pow ⟨0, 1⟩ (-2) = .error .divisionByZero := rfl

/-- Claim C6 (amended): DivisionByZero is raised exactly at construction with
a zero denominator, true and floor division by a zero-numerator fraction,
reciprocal of the zero fraction, and — through the constructed zero
denominator — raising the zero fraction to a negative exponent; all other
operations on invariant operands return values. -/
theorem spec_C6_division_by_zero_cases :
    (∀ n : Int, init n 0 = .error .divisionByZero) ∧
    (∀ n d : Int, d ≠ 0 → ∃ f, init n d = .ok f) ∧
    (∀ f g : FractionDataType, g.num = 0 →
      truediv f g = .error .divisionByZero ∧ floordiv f g = .error .divisionByZero) ∧
    (∀ f g, Invariant f → Invariant g → g.num ≠ 0 →
      (∃ q, truediv f g = .ok q) ∧ (∃ k, floordiv f g = .ok k) ∧ (∃ r, mod f g = .ok r)) ∧
    (∀ f, f.num = 0 → reciprocal f = .error .divisionByZero) ∧
    (∀ f, f.num ≠ 0 → ∃ r, reciprocal f = .ok r) ∧
    (∀ f g, Invariant f → Invariant g →
      (∃ r, add f g = .ok r) ∧ (∃ r, sub f g = .ok r) ∧ (∃ r, mul f g = .ok r)) ∧
    (∀ f, Invariant f →
      (∃ r, neg f = .ok r) ∧ (∃ r, pos f = .ok r) ∧ (∃ r, abs f = .ok r) ∧
      (∃ r, simplify f = .ok r)) ∧
    (∀ f, ∀ e : Int, Invariant f →
      (pow f e = .error .divisionByZero ↔ e < 0 ∧ f.num = 0)) := by
  refine ⟨init_zero_den, ?_, ?_, ?_, ?_, ?_, ?_, ?_, ?_⟩
  · intro n d hd
    obtain ⟨f, hf, _, _⟩ := init_ok n d hd
    exact ⟨f, hf⟩
  · intro f g h0
    unfold truediv floordiv
    rw [if_pos h0, if_pos h0]
    exact ⟨rfl, rfl⟩
  · intro f g hf hg hgn
    have hden : f.den * g.num ≠ 0 := mul_ne_zero (ne_of_gt hf.1) hgn
    obtain ⟨q, hq, _, _⟩ := init_ok (f.num * g.den) (f.den * g.num) hden
    have hdiv : truediv f g = .ok q := by
      unfold truediv
      rw [if_neg hgn, hq]
    have hfl : floordiv f g = .ok ((f.num * g.den).fdiv (f.den * g.num)) := by
      unfold floordiv
      rw [if_neg hgn]
    obtain ⟨qf, hqf, hqfi, _⟩ := init_ok ((f.num * g.den).fdiv (f.den * g.num)) 1 one_ne_zero
    obtain ⟨t, ht, hti, _⟩ := init_ok (g.num * qf.num) (g.den * qf.den)
      (mul_ne_zero (ne_of_gt hg.1) (ne_of_gt hqfi.1))
    obtain ⟨r, hr, _, _⟩ := init_ok (f.num * t.den - t.num * f.den) (f.den * t.den)
      (mul_ne_zero (ne_of_gt hf.1) (ne_of_gt hti.1))
    refine ⟨⟨q, hdiv⟩, ⟨_, hfl⟩, ⟨r, ?_⟩⟩
    unfold mod
    rw [hfl, ok_bind, hqf, ok_bind]
    have hmul : mul g qf = .ok t := ht
    rw [hmul, ok_bind]
    exact hr
  · intro f h0
    unfold reciprocal
    rw [if_pos h0]
  · intro f hn
    obtain ⟨r, hr, _, _⟩ := init_ok f.den f.num hn
    refine ⟨r, ?_⟩
    unfold reciprocal
    rw [if_neg hn, hr]
  · intro f g hf hg
    have hden : f.den * g.den ≠ 0 := mul_ne_zero (ne_of_gt hf.1) (ne_of_gt hg.1)
    obtain ⟨r1, h1, _, _⟩ := init_ok (f.num * g.den + g.num * f.den) (f.den * g.den) hden
    obtain ⟨r2, h2, _, _⟩ := init_ok (f.num * g.den - g.num * f.den) (f.den * g.den) hden
    obtain ⟨r3, h3, _, _⟩ := init_ok (f.num * g.num) (f.den * g.den) hden
    exact ⟨⟨r1, h1⟩, ⟨r2, h2⟩, ⟨r3, h3⟩⟩
  · intro f hf
    have hden : f.den ≠ 0 := ne_of_gt hf.1
    obtain ⟨r1, h1, _, _⟩ := init_ok (-f.num) f.den hden
    obtain ⟨r2, h2, _, _⟩ := init_ok f.num f.den hden
    obtain ⟨r3, h3, _, _⟩ := init_ok |f.num| f.den hden
    exact ⟨⟨r1, h1⟩, ⟨r2, h2⟩, ⟨r3, h3⟩, ⟨r2, h2⟩⟩
  · intro f e hf
    unfold pow
    by_cases he : e < 0
    · rw [if_pos he]
      constructor
      · intro herr
        by_cases hnum : f.num = 0
        · exact ⟨he, hnum⟩
        · obtain ⟨q, hq, _, _⟩ := init_ok (f.den ^ (-e).toNat) (f.num ^ (-e).toNat)
            (pow_ne_zero _ hnum)
          rw [hq] at herr
          simp at herr
      · intro ⟨_, hnum⟩
        rw [hnum, zero_pow (by omega : (-e).toNat ≠ 0)]
        exact init_zero_den _
    · rw [if_neg he]
      obtain ⟨q, hq, _, _⟩ := init_ok (f.num ^ e.toNat) (f.den ^ e.toNat)
        (pow_ne_zero _ (ne_of_gt hf.1))
      rw [hq]
      simp
      omega

/-- Witness for the amended C6: true and floor division of one half by the
zero fraction both fail with DivisionByZero. -/
theorem spec_C6_witness :
    truediv ⟨1, 2⟩ ⟨0, 1⟩ = .error .divisionByZero ∧
      floordiv ⟨1, 2⟩ ⟨0, 1⟩ = .error .divisionByZero :=
  spec_C6_division_by_zero_cases.2.2.1 ⟨1, 2⟩ ⟨0, 1⟩ rfl

/-- Claim C10: raising the zero fraction to any negative integer exponent
fails with the DivisionByZero kind, because the negative-exponent branch
constructs a fraction whose denominator is `0 ** n = 0`. -/
theorem spec_C10_zero_pow_negative (n : Int) (hn : 0 < n) :
    pow ⟨0, 1⟩ (-n) = .error .divisionByZero := by
  unfold pow
  rw [if_pos (by omega : -n < 0)]
  show init (1 ^ (-(-n)).toNat) (0 ^ (-(-n)).toNat) = .error .divisionByZero
  rw [zero_pow (by omega : (-(-n)).toNat ≠ 0)]
  exact init_zero_den _

/-- Witness for C10: the zero fraction raised to the exponent minus one. -/
theorem spec_C10_witness : pow ⟨0, 1⟩ (-1) = .error .divisionByZero :=
  spec_C10_zero_pow_negative 1 (by decide)

end FractionDataType
